import Mathlib

/-!
Verification of the storage orchestration and deduplication engine of the
ActiveCampaign CRM extractor (src/src/background/service-worker.ts, storage
service part, together with the constants of src/unnamed/part_000 and the
types of src/src/shared/message-types.ts).

The embedding is a faithful translation of the TypeScript source into pure
Lean functions:

- an entity record (ACContact / ACDeal / ACTask) is `EntityRecord`: the
  storage layer only ever inspects `id` and `extractedAt`, all other fields
  are irrelevant to it and collapsed into the `data` field;
- the JavaScript `Map` used by `performDeduplication` is an insertion-ordered
  association list (`RecordMap`): `Map.set` on a present key updates the
  value in place keeping the original position, on an absent key it appends;
  `Map.values()` is the list of second components in order;
- `chrome.storage.local` is a `StoreState`: the value under the CRM_DATA key,
  the value under the SYNC_LOCK key and the current wall clock (`Date.now`).
  The claims under verification all condition on store reads and writes
  succeeding, so the embedding models the successful-I/O executions of each
  operation (the TypeScript catch-paths for thrown store errors are the only
  part not modelled); `delayExecution ms` advances the clock by `ms`.

Timestamps (`extractedAt`, `Date.now`, the lock value) are JavaScript
numbers holding integral millisecond counts and are modelled as `Int`.
-/

structure EntityRecord where
  id : String
  extractedAt : Int
  data : String
deriving DecidableEq

/-- The insertion-ordered string-keyed map of `performDeduplication`
(JavaScript `Map<string, T>`). -/
abbrev RecordMap := List (String × EntityRecord)

/-- JavaScript `Map.set`: update in place when the key is present (keeping
its original insertion position), append when absent. -/
def mapSet (k : String) (v : EntityRecord) : RecordMap → RecordMap
  | [] => [(k, v)]
  | (k1, v1) :: rest => if k1 = k then (k1, v) :: rest else (k1, v1) :: mapSet k v rest

/-- JavaScript `Map.get`. -/
def mapGet (k : String) : RecordMap → Option EntityRecord
  | [] => none
  | (k1, v1) :: rest => if k1 = k then some v1 else mapGet k rest

def mapKeys (m : RecordMap) : List String := m.map Prod.fst

/-- The seeding pass of `performDeduplication`:
`recordMap.set(record.id, record)` for each existing record. -/
def seedStep (m : RecordMap) (r : EntityRecord) : RecordMap := mapSet r.id r m

/-- The incoming pass of `performDeduplication`: a new record is inserted
when its id is absent, and replaces the stored record only when its
`extractedAt` is strictly greater (source: `newRecord.extractedAt >
existingRecord.extractedAt`, written here with `<` flipped). -/
def dedupStep (m : RecordMap) (r : EntityRecord) : RecordMap :=
  match mapGet r.id m with
  | none => mapSet r.id r m
  | some ex => if ex.extractedAt < r.extractedAt then mapSet r.id r m else m

/-- Source function performDeduplication of CRMStorageOrchestrator: seed a map with the
existing records, fold the incoming records over it, return the values. -/
def performDeduplication (existingRecords newRecords : List EntityRecord) : List EntityRecord :=
  (newRecords.foldl dedupStep (existingRecords.foldl seedStep [])).map Prod.snd

/-- First record with the given id, i.e. the record a collection associates
to an id (unique when the collection satisfies the id-uniqueness invariant). -/
def lookupById (i : String) : List EntityRecord → Option EntityRecord
  | [] => none
  | r :: rest => if r.id = i then some r else lookupById i rest

/-- The binary recency-resolution underlying the merge: keep the more
recently extracted of two optional records, the first argument winning ties. -/
def comb : Option EntityRecord → Option EntityRecord → Option EntityRecord
  | a, none => a
  | none, some y => some y
  | some x, some y => if x.extractedAt < y.extractedAt then some y else some x

def listComb (a : Option EntityRecord) (l : List EntityRecord) : Option EntityRecord :=
  l.foldl (fun acc r => comb acc (some r)) a

/-- A collection has pairwise distinct record ids. -/
def NodupIds (l : List EntityRecord) : Prop := (l.map EntityRecord.id).Nodup

instance (l : List EntityRecord) : Decidable (NodupIds l) :=
  inferInstanceAs (Decidable (l.map EntityRecord.id).Nodup)

/-- Two collections represent the same id-to-record mapping. -/
def sameMapping (x y : List EntityRecord) : Prop := ∀ i, lookupById i x = lookupById i y

def distinctCount (l : List String) : Nat := l.dedup.length

/-! ## The persisted document and the store -/

structure StorageDoc where
  contacts : List EntityRecord
  deals : List EntityRecord
  tasks : List EntityRecord
  lastSync : Int
  syncInProgress : Bool
deriving DecidableEq

/-- DEFAULT_STORAGE_STATE of src/unnamed/part_000. -/
def DEFAULT_STORAGE_STATE : StorageDoc :=
  { contacts := [], deals := [], tasks := [], lastSync := 0, syncInProgress := false }

inductive EntityType
  | contacts
  | deals
  | tasks
deriving DecidableEq

def StorageDoc.getCollection (d : StorageDoc) : EntityType → List EntityRecord
  | .contacts => d.contacts
  | .deals => d.deals
  | .tasks => d.tasks

def StorageDoc.setCollection (d : StorageDoc) : EntityType → List EntityRecord → StorageDoc
  | .contacts, l => { d with contacts := l }
  | .deals, l => { d with deals := l }
  | .tasks, l => { d with tasks := l }

structure StorageOperationResult (α : Type) where
  success : Bool
  payload : Option α
  errorMessage : Option String
deriving DecidableEq

/-- The two reserved keys of `chrome.storage.local` plus the wall clock. -/
structure StoreState where
  crmData : Option StorageDoc
  syncLock : Option Int
  now : Int
deriving DecidableEq

def lockTimeout : Int := 30000

/-- EXTRACTION_CONFIG.RETRY_ATTEMPTS. -/
def RETRY_ATTEMPTS : Nat := 3

/-- EXTRACTION_CONFIG.RETRY_DELAY_MS. -/
def RETRY_DELAY_MS : Int := 1000

/-- The document as read, `storedData ?? { ...DEFAULT_STORAGE_STATE }`. -/
def stateDoc (s : StoreState) : StorageDoc := s.crmData.getD DEFAULT_STORAGE_STATE

/-- Source method retrieveAllData on the successful-read path: a missing document is
replaced by the default empty one and reported as success. -/
def retrieveAllData (s : StoreState) : StorageOperationResult StorageDoc :=
  { success := true, payload := some (stateDoc s), errorMessage := none }

/-- Source method persistData on the successful-write path. -/
def persistData (s : StoreState) (d : StorageDoc) : StorageOperationResult Unit × StoreState :=
  ({ success := true, payload := some (), errorMessage := none }, { s with crmData := some d })

/-- The contention test of `acquireSyncLock`:
`existingLock && (currentTime - existingLock) < this.lockTimeout`.
JavaScript truthiness makes a stored timestamp of exactly 0 behave as
absent. -/
def lockHeld (s : StoreState) : Bool :=
  match s.syncLock with
  | none => false
  | some ts => ts != 0 && decide (s.now - ts < lockTimeout)

/-- Source method acquireSyncLock: read the document (fail closed when unreadable — a
branch that cannot fire on the modelled successful-read executions but is
kept for structure), fail on a fresh lock, otherwise write the current time
under the lock key and persist the document with `syncInProgress := true`. -/
def acquireSyncLock (s : StoreState) : Bool × StoreState :=
  match (retrieveAllData s).payload with
  | none => (false, s)
  | some doc =>
    if lockHeld s then (false, s)
    else
      (true, (persistData { s with syncLock := some s.now } { doc with syncInProgress := true }).2)

/-- Source method releaseSyncLock: remove the lock key, then persist the document with
`syncInProgress := false`. -/
def releaseSyncLock (s : StoreState) : StoreState :=
  match (retrieveAllData { s with syncLock := none }).payload with
  | none => { s with syncLock := none }
  | some doc => (persistData { s with syncLock := none } { doc with syncInProgress := false }).2

def delayExecution (ms : Int) (s : StoreState) : StoreState := { s with now := s.now + ms }

/-- The critical section of `insertRecordsWithDeduplication`, entered after
the lock was acquired: re-read, deduplicate, write back with `lastSync`
updated, release, report `Math.max(0, merged - original)` net-new records. -/
def insertAttemptBody (et : EntityType) (newRecords : List EntityRecord) (s : StoreState) :
    StorageOperationResult Int × StoreState :=
  match (retrieveAllData s).payload with
  | none =>
      ({ success := false, payload := none,
         errorMessage := some "Failed to retrieve current data for deduplication" },
       releaseSyncLock s)
  | some doc =>
      let existingRecords := doc.getCollection et
      let deduplicatedRecords := performDeduplication existingRecords newRecords
      let updatedData := { doc.setCollection et deduplicatedRecords with lastSync := s.now }
      let persisted := persistData s updatedData
      let s2 := releaseSyncLock persisted.2
      if persisted.1.success then
        ({ success := true,
           payload := some (max 0 ((deduplicatedRecords.length : Int) - (existingRecords.length : Int))),
           errorMessage := none }, s2)
      else
        ({ success := false, payload := none, errorMessage := persisted.1.errorMessage }, s2)

/-- The retry loop of `insertRecordsWithDeduplication`: the fuel is the
remaining lock-acquisition budget (`while (attemptCount < maxRetries)`,
`attemptCount` incremented only on acquisition failure); the third result
component counts the `acquireSyncLock` calls made. -/
def insertLoop (et : EntityType) (newRecords : List EntityRecord) :
    Nat → StoreState → Nat → StorageOperationResult Int × StoreState × Nat
  | 0, s, attempts =>
      ({ success := false, payload := none,
         errorMessage := some "Failed to acquire sync lock after maximum retries" },
       s, attempts)
  | fuel + 1, s, attempts =>
      let acq := acquireSyncLock s
      if acq.1 then
        let body := insertAttemptBody et newRecords acq.2
        (body.1, body.2, attempts + 1)
      else
        insertLoop et newRecords fuel (delayExecution RETRY_DELAY_MS acq.2) (attempts + 1)

def insertRecordsWithDeduplication (et : EntityType) (newRecords : List EntityRecord)
    (s : StoreState) : StorageOperationResult Int × StoreState × Nat :=
  insertLoop et newRecords RETRY_ATTEMPTS s 0

/-- Source method removeRecord: filter the collection; when nothing was removed report
`Record not found` without writing, otherwise persist the filtered document
(`lastSync` untouched). -/
def removeRecord (et : EntityType) (recordId : String) (s : StoreState) :
    StorageOperationResult Unit × StoreState :=
  match (retrieveAllData s).payload with
  | none =>
      ({ success := false, payload := none, errorMessage := some "Failed to retrieve current data" }, s)
  | some doc =>
      let existingRecords := doc.getCollection et
      let filteredRecords := existingRecords.filter (fun r => r.id != recordId)
      if filteredRecords.length = existingRecords.length then
        ({ success := false, payload := none, errorMessage := some "Record not found" }, s)
      else
        persistData s (doc.setCollection et filteredRecords)

/-- Source method clearAllRecords: overwrite the document with the default state. -/
def clearAllRecords (s : StoreState) : StorageOperationResult Unit × StoreState :=
  ({ success := true, payload := some (), errorMessage := none },
   { s with crmData := some DEFAULT_STORAGE_STATE })

/-! ## Sequences of storage operations -/

/-- One public mutation together with the wall-clock value at which it runs. -/
inductive StorageOp
  | insert (et : EntityType) (batch : List EntityRecord) (t : Int)
  | remove (et : EntityType) (recordId : String) (t : Int)
  | clear (t : Int)

def runOp (s : StoreState) : StorageOp → StoreState
  | .insert et batch t => (insertRecordsWithDeduplication et batch { s with now := t }).2.1
  | .remove et recordId t => (removeRecord et recordId { s with now := t }).2
  | .clear t => (clearAllRecords { s with now := t }).2

def runOps (s : StoreState) (ops : List StorageOp) : StoreState := ops.foldl runOp s

/-- The §3 invariant: within each collection, no two records share an id. -/
def docInv (d : StorageDoc) : Prop := ∀ et, NodupIds (d.getCollection et)

def stateInv (s : StoreState) : Prop := docInv (stateDoc s)

/-- Well-formedness of the deduplication map: every entry is keyed by the id
of the record it holds (`recordMap.set(record.id, record)` only). -/
def mapWF (m : RecordMap) : Prop := ∀ p ∈ m, p.1 = p.2.id

/-! ## Lemmas about the insertion-ordered map -/

theorem mapGet_set_self (k : String) (v : EntityRecord) (m : RecordMap) :
    mapGet k (mapSet k v m) = some v := by
  induction m with
  | nil => simp [mapSet, mapGet]
  | cons q rest ih =>
    obtain ⟨k1, v1⟩ := q
    by_cases h : k1 = k
    · simp [mapSet, mapGet, h]
    · simp [mapSet, mapGet, h, ih]

theorem mapGet_set_ne (k v : _) (m : RecordMap) (h : i ≠ k) :
    mapGet i (mapSet k v m) = mapGet i m := by
  induction m with
  | nil => simp [mapSet, mapGet, Ne.symm h]
  | cons q rest ih =>
    obtain ⟨k1, v1⟩ := q
    by_cases h1 : k1 = k
    · subst h1
      simp [mapSet, mapGet, Ne.symm h]
    · simp [mapSet, mapGet, h1, ih]

theorem mapKeys_set (k v : _) (m : RecordMap) :
    mapKeys (mapSet k v m) = if k ∈ mapKeys m then mapKeys m else mapKeys m ++ [k] := by
  induction m with
  | nil => simp [mapSet, mapKeys]
  | cons q rest ih =>
    obtain ⟨k1, v1⟩ := q
    by_cases h1 : k1 = k
    · subst h1
      simp [mapSet, mapKeys]
    · simp only [mapSet, h1, if_false, mapKeys, List.map_cons] at ih ⊢
      rw [ih]
      by_cases h2 : k ∈ rest.map Prod.fst
      · simp [h2, Ne.symm h1]
      · simp [h2, Ne.symm h1]

theorem length_mapSet (k v : _) (m : RecordMap) :
    (mapSet k v m).length = if k ∈ mapKeys m then m.length else m.length + 1 := by
  induction m with
  | nil => simp [mapSet, mapKeys]
  | cons q rest ih =>
    obtain ⟨k1, v1⟩ := q
    by_cases h1 : k1 = k
    · subst h1
      simp [mapSet, mapKeys]
    · simp only [mapSet, h1, if_false, List.length_cons, mapKeys, List.map_cons] at ih ⊢
      rw [ih]
      by_cases h2 : k ∈ rest.map Prod.fst
      · simp [h2, Ne.symm h1]
      · simp [h2, Ne.symm h1]

theorem mapGet_eq_none_iff (k : String) (m : RecordMap) :
    mapGet k m = none ↔ k ∉ mapKeys m := by
  induction m with
  | nil => simp [mapGet, mapKeys]
  | cons q rest ih =>
    obtain ⟨k1, v1⟩ := q
    by_cases h1 : k1 = k
    · subst h1
      simp [mapGet, mapKeys]
    · simp [mapGet, mapKeys, h1, ih, Ne.symm h1]

theorem mapSet_append (k v : _) (m : RecordMap) (h : k ∉ mapKeys m) :
    mapSet k v m = m ++ [(k, v)] := by
  induction m with
  | nil => rfl
  | cons q rest ih =>
    obtain ⟨k1, v1⟩ := q
    simp only [mapKeys, List.map_cons, List.mem_cons] at h
    push_neg at h
    simp [mapSet, Ne.symm h.1, ih h.2]

theorem mapWF_set (v : EntityRecord) : ∀ m : RecordMap, mapWF m → mapWF (mapSet v.id v m) := by
  intro m
  induction m with
  | nil =>
    intro _ p hp
    simp only [mapSet, List.mem_singleton] at hp
    subst hp
    rfl
  | cons q rest ih =>
    obtain ⟨k1, v1⟩ := q
    intro h p hp
    by_cases h1 : k1 = v.id
    · simp only [mapSet, h1, if_true, List.mem_cons] at hp
      rcases hp with hp | hp
      · subst hp
        rfl
      · exact h p (List.mem_cons_of_mem _ hp)
    · simp only [mapSet, h1, if_false, List.mem_cons] at hp
      rcases hp with hp | hp
      · subst hp
        exact h _ (List.mem_cons_self _ _)
      · exact ih (fun q hq => h q (List.mem_cons_of_mem _ hq)) p hp

theorem mapWF_dedupStep (m : RecordMap) (r : EntityRecord) (h : mapWF m) :
    mapWF (dedupStep m r) := by
  unfold dedupStep
  cases mapGet r.id m with
  | none => exact mapWF_set r m h
  | some ex =>
    by_cases ht : ex.extractedAt < r.extractedAt
    · simpa [ht] using mapWF_set r m h
    · simpa [ht] using h

theorem mapWF_foldl_seed : ∀ (E : List EntityRecord) (m : RecordMap), mapWF m →
    mapWF (E.foldl seedStep m) := by
  intro E
  induction E with
  | nil => intro m h; exact h
  | cons r E ih =>
    intro m h
    exact ih _ (mapWF_set r m h)

theorem mapWF_foldl_dedup : ∀ (B : List EntityRecord) (m : RecordMap), mapWF m →
    mapWF (B.foldl dedupStep m) := by
  intro B
  induction B with
  | nil => intro m h; exact h
  | cons b B ih =>
    intro m h
    exact ih _ (mapWF_dedupStep m b h)

theorem nodupKeys_set (k v : _) (m : RecordMap) (h : (mapKeys m).Nodup) :
    (mapKeys (mapSet k v m)).Nodup := by
  rw [mapKeys_set]
  by_cases hk : k ∈ mapKeys m
  · simpa [hk] using h
  · simp [hk, List.nodup_append, h]

theorem nodupKeys_dedupStep (m : RecordMap) (r : EntityRecord) (h : (mapKeys m).Nodup) :
    (mapKeys (dedupStep m r)).Nodup := by
  unfold dedupStep
  cases mapGet r.id m with
  | none => exact nodupKeys_set r.id r m h
  | some ex =>
    by_cases ht : ex.extractedAt < r.extractedAt
    · simpa [ht] using nodupKeys_set r.id r m h
    · simpa [ht] using h

theorem nodupKeys_foldl_seed : ∀ (E : List EntityRecord) (m : RecordMap),
    (mapKeys m).Nodup → (mapKeys (E.foldl seedStep m)).Nodup := by
  intro E
  induction E with
  | nil => intro m h; exact h
  | cons r E ih =>
    intro m h
    exact ih _ (nodupKeys_set r.id r m h)

theorem nodupKeys_foldl_dedup : ∀ (B : List EntityRecord) (m : RecordMap),
    (mapKeys m).Nodup → (mapKeys (B.foldl dedupStep m)).Nodup := by
  intro B
  induction B with
  | nil => intro m h; exact h
  | cons b B ih =>
    intro m h
    exact ih _ (nodupKeys_dedupStep m b h)

theorem values_ids (m : RecordMap) (h : mapWF m) :
    (m.map Prod.snd).map EntityRecord.id = mapKeys m := by
  induction m with
  | nil => rfl
  | cons q rest ih =>
    obtain ⟨k1, v1⟩ := q
    have h1 : k1 = v1.id := h _ (List.mem_cons_self _ _)
    simp only [List.map_cons, mapKeys]
    rw [← h1, ih (fun p hp => h p (List.mem_cons_of_mem _ hp))]
    rfl

theorem lookupById_values (m : RecordMap) (h : mapWF m) (i : String) :
    lookupById i (m.map Prod.snd) = mapGet i m := by
  induction m with
  | nil => rfl
  | cons q rest ih =>
    obtain ⟨k1, v1⟩ := q
    have h1 : k1 = v1.id := h _ (List.mem_cons_self _ _)
    simp only [List.map_cons, lookupById, mapGet, ← h1]
    by_cases hk : k1 = i
    · simp [hk]
    · simp [hk, ih (fun p hp => h p (List.mem_cons_of_mem _ hp))]

/-! ## Characterizing the deduplication merge -/

theorem mapGet_dedupStep (m : RecordMap) (r : EntityRecord) (i : String) :
    mapGet i (dedupStep m r) = if r.id = i then comb (mapGet i m) (some r) else mapGet i m := by
  unfold dedupStep
  by_cases hid : r.id = i
  · subst hid
    cases hm : mapGet r.id m with
    | none => simp [hm, mapGet_set_self, comb]
    | some ex =>
      by_cases ht : ex.extractedAt < r.extractedAt
      · simp [hm, ht, mapGet_set_self, comb]
      · simp [hm, ht, comb]
  · cases hm : mapGet r.id m with
    | none => simp [hm, hid, mapGet_set_ne r.id r m (Ne.symm hid)]
    | some ex =>
      by_cases ht : ex.extractedAt < r.extractedAt
      · simp [hm, ht, hid, mapGet_set_ne r.id r m (Ne.symm hid)]
      · simp [hm, ht, hid]

theorem listComb_cons (a : Option EntityRecord) (r : EntityRecord) (l : List EntityRecord) :
    listComb a (r :: l) = listComb (comb a (some r)) l := rfl

theorem mapGet_foldl_dedupStep (i : String) :
    ∀ (B : List EntityRecord) (m : RecordMap),
      mapGet i (B.foldl dedupStep m) = listComb (mapGet i m) (B.filter (fun r => r.id == i)) := by
  intro B
  induction B with
  | nil => intro m; rfl
  | cons b B ih =>
    intro m
    rw [List.foldl_cons, ih, mapGet_dedupStep]
    by_cases hb : b.id = i
    · simp [hb, List.filter_cons, listComb_cons]
    · simp [hb, List.filter_cons]

theorem foldl_seed_append : ∀ (E : List EntityRecord) (m : RecordMap), NodupIds E →
    (∀ r ∈ E, r.id ∉ mapKeys m) →
    E.foldl seedStep m = m ++ E.map (fun r => (r.id, r)) := by
  intro E
  induction E with
  | nil => intro m _ _; simp
  | cons r E ih =>
    intro m hnd hdis
    have hstep : seedStep m r = m ++ [(r.id, r)] :=
      mapSet_append r.id r m (hdis r (List.mem_cons_self _ _))
    have hnd2 : NodupIds E := by
      have := hnd
      simp only [NodupIds, List.map_cons, List.nodup_cons] at this
      exact this.2
    have hnotin : r.id ∉ E.map EntityRecord.id := by
      have := hnd
      simp only [NodupIds, List.map_cons, List.nodup_cons] at this
      exact this.1
    have hdis2 : ∀ r1 ∈ E, r1.id ∉ mapKeys (m ++ [(r.id, r)]) := by
      intro r1 hr1
      simp only [mapKeys, List.map_append, List.mem_append, List.map_cons, List.map_nil,
        List.mem_singleton]
      push_neg
      refine ⟨hdis r1 (List.mem_cons_of_mem _ hr1), ?_⟩
      intro hcon
      exact hnotin (hcon ▸ List.mem_map_of_mem EntityRecord.id hr1)
    rw [List.foldl_cons, hstep, ih _ hnd2 hdis2, List.append_assoc]
    rfl

theorem seeded_eq (E : List EntityRecord) (hE : NodupIds E) :
    E.foldl seedStep [] = E.map (fun r => (r.id, r)) := by
  have := foldl_seed_append E [] hE (by intro r _; simp [mapKeys])
  simpa using this

theorem mapGet_map_pair (i : String) :
    ∀ E : List EntityRecord, mapGet i (E.map (fun r => (r.id, r))) = lookupById i E := by
  intro E
  induction E with
  | nil => rfl
  | cons r E ih => simp [mapGet, lookupById, ih]

theorem lookupById_performDeduplication (E B : List EntityRecord) (hE : NodupIds E) (i : String) :
    lookupById i (performDeduplication E B) =
      listComb (lookupById i E) (B.filter (fun r => r.id == i)) := by
  unfold performDeduplication
  rw [lookupById_values _ (mapWF_foldl_dedup B _ (mapWF_foldl_seed E [] (by intro p hp; simp at hp))),
    mapGet_foldl_dedupStep, seeded_eq E hE, mapGet_map_pair]

theorem NodupIds_performDeduplication (E B : List EntityRecord) :
    NodupIds (performDeduplication E B) := by
  unfold performDeduplication NodupIds
  have hwf : mapWF (B.foldl dedupStep (E.foldl seedStep [])) :=
    mapWF_foldl_dedup B _ (mapWF_foldl_seed E [] (by intro p hp; simp at hp))
  rw [values_ids _ hwf]
  exact nodupKeys_foldl_dedup B _ (nodupKeys_foldl_seed E [] (by simp [mapKeys]))

theorem lookupById_eq_some_of_mem (E : List EntityRecord) (r : EntityRecord)
    (hE : NodupIds E) (hr : r ∈ E) : lookupById r.id E = some r := by
  induction E with
  | nil => cases hr
  | cons h t ih =>
    simp only [NodupIds, List.map_cons, List.nodup_cons] at hE
    rcases List.mem_cons.mp hr with hr | hr
    · subst hr
      simp [lookupById]
    · have hne : h.id ≠ r.id := by
        intro hc
        exact hE.1 (hc ▸ List.mem_map_of_mem EntityRecord.id hr)
      simp [lookupById, hne, ih hE.2 hr]

theorem lookupById_mem (E : List EntityRecord) (i : String) (r : EntityRecord)
    (h : lookupById i E = some r) : r ∈ E ∧ r.id = i := by
  induction E with
  | nil => cases h
  | cons h0 t ih =>
    by_cases hc : h0.id = i
    · simp only [lookupById, hc, if_true, Option.some.injEq] at h
      subst h
      exact ⟨List.mem_cons_self _ _, hc⟩
    · simp only [lookupById, hc, if_false] at h
      obtain ⟨hm, hi⟩ := ih h
      exact ⟨List.mem_cons_of_mem _ hm, hi⟩

theorem filter_id_nil (E : List EntityRecord) (i : String) (h : i ∉ E.map EntityRecord.id) :
    E.filter (fun r => r.id == i) = [] := by
  induction E with
  | nil => rfl
  | cons r E ih =>
    simp only [List.map_cons, List.mem_cons] at h
    push_neg at h
    simp [List.filter_cons, Ne.symm h.1, ih h.2]

theorem filter_id_toList (E : List EntityRecord) (i : String) (hE : NodupIds E) :
    E.filter (fun r => r.id == i) = (lookupById i E).toList := by
  induction E with
  | nil => rfl
  | cons r E ih =>
    simp only [NodupIds, List.map_cons, List.nodup_cons] at hE
    by_cases hc : r.id = i
    · have : E.filter (fun x => x.id == i) = [] := filter_id_nil E i (hc ▸ hE.1)
      simp [List.filter_cons, hc, lookupById, this]
    · simp [List.filter_cons, hc, lookupById, ih hE.2]

/-! ## The recency-resolution algebra -/

theorem comb_none_left (b : Option EntityRecord) : comb none b = b := by
  cases b <;> rfl

theorem comb_none_right (a : Option EntityRecord) : comb a none = a := by
  cases a <;> rfl

theorem comb_some_some (x y : EntityRecord) :
    comb (some x) (some y) = if x.extractedAt < y.extractedAt then some y else some x := rfl

theorem comb_assoc (a b c : Option EntityRecord) : comb (comb a b) c = comb a (comb b c) := by
  cases a with
  | none => rw [comb_none_left, comb_none_left]
  | some x =>
    cases b with
    | none => rw [comb_none_right, comb_none_left]
    | some y =>
      cases c with
      | none => rw [comb_none_right, comb_none_right]
      | some z =>
        rw [comb_some_some x y, comb_some_some y z]
        by_cases h1 : x.extractedAt < y.extractedAt
        · rw [if_pos h1]
          by_cases h2 : y.extractedAt < z.extractedAt
          · rw [if_pos h2, comb_some_some, comb_some_some,
              if_pos (show x.extractedAt < z.extractedAt by omega), if_pos h2]
          · rw [if_neg h2, comb_some_some, comb_some_some, if_neg h2, if_pos h1]
        · rw [if_neg h1]
          by_cases h2 : y.extractedAt < z.extractedAt
          · rw [if_pos h2, comb_some_some]
          · rw [if_neg h2, comb_some_some, comb_some_some,
              if_neg (show ¬x.extractedAt < z.extractedAt by omega), if_neg h1]

theorem listComb_toList (a : Option EntityRecord) (o : Option EntityRecord) :
    listComb a o.toList = comb a o := by
  cases o with
  | none => exact (comb_none_right a).symm
  | some r => rfl

theorem listComb_comb (l : List EntityRecord) :
    ∀ a b : Option EntityRecord, listComb (comb a b) l = comb a (listComb b l) := by
  induction l with
  | nil => intro a b; rfl
  | cons c l ih =>
    intro a b
    rw [listComb_cons, comb_assoc, ih, listComb_cons]

theorem comb_comm_coherent (a b : Option EntityRecord)
    (h : ∀ x y, a = some x → b = some y → x.extractedAt = y.extractedAt → x = y) :
    comb a b = comb b a := by
  cases a with
  | none => cases b <;> rfl
  | some x =>
    cases b with
    | none => rfl
    | some y =>
      simp only [comb]
      split_ifs with h1 h2 h2
      · omega
      · rfl
      · rfl
      · have hxy : x = y := h x y rfl rfl (by omega)
        rw [hxy]

theorem comb_some_right (a : Option EntityRecord) (c : EntityRecord) :
    ∃ d, comb a (some c) = some d ∧ c.extractedAt ≤ d.extractedAt := by
  cases a with
  | none => exact ⟨c, rfl, le_refl _⟩
  | some x =>
    by_cases hx : x.extractedAt < c.extractedAt
    · exact ⟨c, by simp [comb, hx], le_refl _⟩
    · exact ⟨x, by simp [comb, hx], by omega⟩

theorem comb_some_left (x : EntityRecord) (b : Option EntityRecord) :
    ∃ d, comb (some x) b = some d ∧ x.extractedAt ≤ d.extractedAt := by
  cases b with
  | none => exact ⟨x, comb_none_right _, le_refl _⟩
  | some y =>
    by_cases h : x.extractedAt < y.extractedAt
    · exact ⟨y, by rw [comb_some_some, if_pos h], by omega⟩
    · exact ⟨x, by rw [comb_some_some, if_neg h], le_refl _⟩

theorem listComb_some_mono (l : List EntityRecord) :
    ∀ x : EntityRecord, ∃ y, listComb (some x) l = some y ∧ x.extractedAt ≤ y.extractedAt := by
  induction l with
  | nil => intro x; exact ⟨x, rfl, le_refl _⟩
  | cons c l ih =>
    intro x
    obtain ⟨d, hd, hdt⟩ := comb_some_left x (some c)
    obtain ⟨y, hy, hyt⟩ := ih d
    refine ⟨y, ?_, by omega⟩
    rw [listComb_cons, hd, hy]

theorem listComb_mem_le (l : List EntityRecord) :
    ∀ (a : Option EntityRecord) (r : EntityRecord), r ∈ l →
      ∃ ex, listComb a l = some ex ∧ r.extractedAt ≤ ex.extractedAt := by
  induction l with
  | nil => intro a r hr; cases hr
  | cons c l ih =>
    intro a r hr
    rcases List.mem_cons.mp hr with hr | hr
    · subst hr
      obtain ⟨d, hd, hdt⟩ := comb_some_right a r
      obtain ⟨y, hy, hyt⟩ := listComb_some_mono l d
      refine ⟨y, ?_, by omega⟩
      rw [listComb_cons, hd, hy]
    · obtain ⟨ex, hx, hxt⟩ := ih (comb a (some c)) r hr
      exact ⟨ex, by rw [listComb_cons, hx], hxt⟩

/-! ## Length and key-membership facts for the merge -/

theorem mem_keys_mapSet (k v : _) (m : RecordMap) : k ∈ mapKeys (mapSet k v m) := by
  rw [mapKeys_set]
  by_cases h : k ∈ mapKeys m <;> simp [h]

theorem mem_keys_mapSet_of_mem (a k : String) (v : EntityRecord) (m : RecordMap)
    (h : a ∈ mapKeys m) : a ∈ mapKeys (mapSet k v m) := by
  rw [mapKeys_set]
  by_cases hk : k ∈ mapKeys m <;> simp [hk, h]

theorem mem_keys_dedupStep_of_mem (a : String) (m : RecordMap) (r : EntityRecord)
    (h : a ∈ mapKeys m) : a ∈ mapKeys (dedupStep m r) := by
  unfold dedupStep
  cases mapGet r.id m with
  | none => exact mem_keys_mapSet_of_mem a r.id r m h
  | some ex =>
    by_cases ht : ex.extractedAt < r.extractedAt
    · simpa [ht] using mem_keys_mapSet_of_mem a r.id r m h
    · simpa [ht] using h

theorem mem_keys_foldl_dedup (a : String) : ∀ (B : List EntityRecord) (m : RecordMap),
    a ∈ mapKeys m → a ∈ mapKeys (B.foldl dedupStep m) := by
  intro B
  induction B with
  | nil => intro m h; exact h
  | cons b B ih =>
    intro m h
    exact ih _ (mem_keys_dedupStep_of_mem a m b h)

theorem mem_keys_foldl_seed (r : EntityRecord) : ∀ (E : List EntityRecord) (m : RecordMap),
    r ∈ E ∨ r.id ∈ mapKeys m → r.id ∈ mapKeys (E.foldl seedStep m) := by
  intro E
  induction E with
  | nil =>
    intro m h
    rcases h with h | h
    · cases h
    · exact h
  | cons e E ih =>
    intro m h
    rcases h with h | h
    · rcases List.mem_cons.mp h with h | h
      · subst h
        exact ih _ (Or.inr (mem_keys_mapSet r.id r m))
      · exact ih _ (Or.inl h)
    · exact ih _ (Or.inr (mem_keys_mapSet_of_mem r.id e.id e m h))

theorem keys_sub_foldl_seed (a : String) : ∀ (E : List EntityRecord) (m : RecordMap),
    a ∈ mapKeys (E.foldl seedStep m) → a ∈ mapKeys m ∨ a ∈ E.map EntityRecord.id := by
  intro E
  induction E with
  | nil => intro m h; exact Or.inl h
  | cons e E ih =>
    intro m h
    rcases ih _ h with h | h
    · simp only [seedStep] at h
      rw [mapKeys_set] at h
      by_cases he : e.id ∈ mapKeys m
      · rw [if_pos he] at h
        exact Or.inl h
      · rw [if_neg he] at h
        rcases List.mem_append.mp h with h | h
        · exact Or.inl h
        · simp only [List.mem_singleton] at h
          subst h
          exact Or.inr (by simp)
    · exact Or.inr (by simp [h])

theorem length_eq_keys_length (m : RecordMap) : m.length = (mapKeys m).length := by
  simp [mapKeys]

theorem dedupStep_eq_new (m : RecordMap) (r : EntityRecord) (hm : mapGet r.id m = none) :
    dedupStep m r = mapSet r.id r m := by
  simp [dedupStep, hm]

theorem dedupStep_eq_replace (m : RecordMap) (r ex : EntityRecord)
    (hm : mapGet r.id m = some ex) (ht : ex.extractedAt < r.extractedAt) :
    dedupStep m r = mapSet r.id r m := by
  simp [dedupStep, hm, ht]

theorem dedupStep_eq_keep (m : RecordMap) (r ex : EntityRecord)
    (hm : mapGet r.id m = some ex) (ht : ¬ex.extractedAt < r.extractedAt) :
    dedupStep m r = m := by
  simp [dedupStep, hm, ht]

theorem length_le_dedupStep (m : RecordMap) (r : EntityRecord) :
    m.length ≤ (dedupStep m r).length := by
  cases hm : mapGet r.id m with
  | none =>
    rw [dedupStep_eq_new m r hm, length_mapSet]
    by_cases h : r.id ∈ mapKeys m <;> simp [h]
  | some ex =>
    by_cases ht : ex.extractedAt < r.extractedAt
    · rw [dedupStep_eq_replace m r ex hm ht, length_mapSet]
      by_cases h : r.id ∈ mapKeys m <;> simp [h]
    · rw [dedupStep_eq_keep m r ex hm ht]

theorem length_le_foldl_dedup : ∀ (B : List EntityRecord) (m : RecordMap),
    m.length ≤ (B.foldl dedupStep m).length := by
  intro B
  induction B with
  | nil => intro m; exact le_refl _
  | cons b B ih =>
    intro m
    exact le_trans (length_le_dedupStep m b) (ih _)

theorem foldl_dedupStep_id : ∀ (B : List EntityRecord) (m : RecordMap),
    (∀ b ∈ B, ∃ ex, mapGet b.id m = some ex ∧ ¬ex.extractedAt < b.extractedAt) →
    B.foldl dedupStep m = m := by
  intro B
  induction B with
  | nil => intro m _; rfl
  | cons b B ih =>
    intro m h
    obtain ⟨ex, hex, ht⟩ := h b (List.mem_cons_self _ _)
    rw [List.foldl_cons, dedupStep_eq_keep m b ex hex ht]
    exact ih m (fun b1 hb1 => h b1 (List.mem_cons_of_mem _ hb1))

theorem length_foldl_dedup_disjoint : ∀ (B : List EntityRecord) (m : RecordMap),
    NodupIds B → (∀ b ∈ B, b.id ∉ mapKeys m) →
    (B.foldl dedupStep m).length = m.length + B.length := by
  intro B
  induction B with
  | nil => intro m _ _; rfl
  | cons b B ih =>
    intro m hnd hdis
    have hbm : b.id ∉ mapKeys m := hdis b (List.mem_cons_self _ _)
    have hget : mapGet b.id m = none := (mapGet_eq_none_iff _ _).mpr hbm
    rw [List.foldl_cons, dedupStep_eq_new m b hget]
    have hnd2 : NodupIds B := by
      simp only [NodupIds, List.map_cons, List.nodup_cons] at hnd
      exact hnd.2
    have hnotin : b.id ∉ B.map EntityRecord.id := by
      simp only [NodupIds, List.map_cons, List.nodup_cons] at hnd
      exact hnd.1
    have hdis2 : ∀ b1 ∈ B, b1.id ∉ mapKeys (mapSet b.id b m) := by
      intro b1 hb1
      rw [mapKeys_set, if_neg hbm]
      simp only [List.mem_append, List.mem_singleton]
      push_neg
      refine ⟨hdis b1 (List.mem_cons_of_mem _ hb1), ?_⟩
      intro hc
      exact hnotin (hc ▸ List.mem_map_of_mem EntityRecord.id hb1)
    rw [ih _ hnd2 hdis2, length_mapSet, if_neg hbm]
    simp only [List.length_cons]
    omega

theorem keys_dedupStep_of_mem (m : RecordMap) (r : EntityRecord) (h : r.id ∈ mapKeys m) :
    mapKeys (dedupStep m r) = mapKeys m ∧ (dedupStep m r).length = m.length := by
  cases hm : mapGet r.id m with
  | none => exact absurd h ((mapGet_eq_none_iff _ _).mp hm)
  | some ex =>
    by_cases ht : ex.extractedAt < r.extractedAt
    · rw [dedupStep_eq_replace m r ex hm ht, mapKeys_set, if_pos h, length_mapSet, if_pos h]
      exact ⟨rfl, rfl⟩
    · rw [dedupStep_eq_keep m r ex hm ht]
      exact ⟨rfl, rfl⟩

theorem length_foldl_dedup_subset : ∀ (B : List EntityRecord) (m : RecordMap),
    (∀ b ∈ B, b.id ∈ mapKeys m) → (B.foldl dedupStep m).length = m.length := by
  intro B
  induction B with
  | nil => intro m _; rfl
  | cons b B ih =>
    intro m h
    obtain ⟨hkeys, hlen⟩ := keys_dedupStep_of_mem m b (h b (List.mem_cons_self _ _))
    rw [List.foldl_cons, ih _ ?_, hlen]
    intro b1 hb1
    rw [hkeys]
    exact h b1 (List.mem_cons_of_mem _ hb1)

theorem mapKeys_map_pair (E : List EntityRecord) :
    mapKeys (E.map (fun r => (r.id, r))) = E.map EntityRecord.id := by
  simp [mapKeys, List.map_map]

theorem dedup_nil_length (B : List EntityRecord) (hB : NodupIds B) :
    (performDeduplication [] B).length = B.length := by
  unfold performDeduplication
  rw [List.length_map]
  have := length_foldl_dedup_disjoint B [] hB (by simp [mapKeys])
  simpa using this

theorem dedup_subset_length (E B : List EntityRecord) (hE : NodupIds E)
    (hB : ∀ b ∈ B, b.id ∈ E.map EntityRecord.id) :
    (performDeduplication E B).length = E.length := by
  unfold performDeduplication
  rw [List.length_map, seeded_eq E hE, length_foldl_dedup_subset B _ ?_, List.length_map]
  intro b hb
  rw [mapKeys_map_pair]
  exact hB b hb

theorem dedup_ge_length (E B : List EntityRecord) (hE : NodupIds E) :
    E.length ≤ (performDeduplication E B).length := by
  unfold performDeduplication
  rw [List.length_map]
  have h1 : (E.foldl seedStep []).length = E.length := by
    rw [seeded_eq E hE, List.length_map]
  have h2 := length_le_foldl_dedup B (E.foldl seedStep [])
  omega

theorem length_seeded_eq_distinct (E : List EntityRecord) :
    (E.foldl seedStep []).length = distinctCount (E.map EntityRecord.id) := by
  rw [length_eq_keys_length]
  have hnd : (mapKeys (E.foldl seedStep [])).Nodup := nodupKeys_foldl_seed E [] (by simp [mapKeys])
  have hmem : ∀ a, a ∈ mapKeys (E.foldl seedStep []) ↔ a ∈ E.map EntityRecord.id := by
    intro a
    constructor
    · intro h
      rcases keys_sub_foldl_seed a E [] h with h | h
      · simp [mapKeys] at h
      · exact h
    · intro h
      obtain ⟨r, hr, hra⟩ := List.mem_map.mp h
      subst hra
      exact mem_keys_foldl_seed r E [] (Or.inl hr)
  have h1 : (mapKeys (E.foldl seedStep [])).toFinset = (E.map EntityRecord.id).dedup.toFinset := by
    ext a
    simp [List.mem_toFinset, List.mem_dedup, hmem a]
  have h2 := List.toFinset_card_of_nodup hnd
  have h3 := List.toFinset_card_of_nodup (List.nodup_dedup (E.map EntityRecord.id))
  unfold distinctCount
  rw [← h2, h1, h3]

theorem dedup_empty_batch (E : List EntityRecord) (hE : NodupIds E) :
    performDeduplication E [] = E := by
  unfold performDeduplication
  rw [List.foldl_nil, seeded_eq E hE, List.map_map]
  have hco : (Prod.snd ∘ fun r : EntityRecord => (r.id, r)) = id := rfl
  rw [hco, List.map_id]

/-! ## Characterizing the storage operations -/

theorem lockHeld_iff (s : StoreState) :
    lockHeld s = true ↔ ∃ ts, s.syncLock = some ts ∧ ts ≠ 0 ∧ s.now - ts < lockTimeout := by
  cases hs : s.syncLock with
  | none => simp [lockHeld, hs]
  | some ts => simp [lockHeld, hs, Bool.and_eq_true, bne_iff_ne, decide_eq_true_iff]

theorem acquire_held (s : StoreState) (h : lockHeld s = true) :
    acquireSyncLock s = (false, s) := by
  simp [acquireSyncLock, retrieveAllData, h]

theorem acquire_free (s : StoreState) (h : lockHeld s = false) :
    acquireSyncLock s =
      (true, { crmData := some { stateDoc s with syncInProgress := true },
               syncLock := some s.now, now := s.now }) := by
  simp [acquireSyncLock, retrieveAllData, persistData, h]

theorem acquire_fail_eq (s : StoreState) (h : (acquireSyncLock s).1 = false) :
    acquireSyncLock s = (false, s) := by
  by_cases hl : lockHeld s
  · exact acquire_held s hl
  · rw [acquire_free s (by simpa using hl)] at h
    cases h

theorem releaseSyncLock_eq (s : StoreState) :
    releaseSyncLock s =
      { crmData := some { stateDoc s with syncInProgress := false },
        syncLock := none, now := s.now } := by
  simp [releaseSyncLock, retrieveAllData, persistData, stateDoc]

theorem insertAttemptBody_eq (et : EntityType) (B : List EntityRecord) (s : StoreState) :
    insertAttemptBody et B s =
      ({ success := true,
         payload := some (max 0
           (((performDeduplication ((stateDoc s).getCollection et) B).length : Int) -
             (((stateDoc s).getCollection et).length : Int))),
         errorMessage := none },
       releaseSyncLock { s with crmData := some { ((stateDoc s).setCollection et (performDeduplication ((stateDoc s).getCollection et) B)) with lastSync := s.now } }) := by
  simp [insertAttemptBody, retrieveAllData, persistData]

theorem insertLoop_succ (et : EntityType) (B : List EntityRecord) (fuel : Nat) (s : StoreState)
    (acc : Nat) :
    insertLoop et B (fuel + 1) s acc =
      if (acquireSyncLock s).1 then
        ((insertAttemptBody et B (acquireSyncLock s).2).1,
         (insertAttemptBody et B (acquireSyncLock s).2).2, acc + 1)
      else insertLoop et B fuel (delayExecution RETRY_DELAY_MS (acquireSyncLock s).2) (acc + 1) :=
  rfl

theorem getCollection_syncFlag (d : StorageDoc) (b : Bool) (et : EntityType) :
    StorageDoc.getCollection { d with syncInProgress := b } et = d.getCollection et := by
  cases et <;> rfl

theorem getCollection_lastSyncSet (d : StorageDoc) (t : Int) (et : EntityType) :
    StorageDoc.getCollection { d with lastSync := t } et = d.getCollection et := by
  cases et <;> rfl

theorem getCollection_setCollection (d : StorageDoc) (et et2 : EntityType)
    (l : List EntityRecord) :
    (d.setCollection et l).getCollection et2 = if et2 = et then l else d.getCollection et2 := by
  cases et <;> cases et2 <;> simp [StorageDoc.getCollection, StorageDoc.setCollection]

theorem lockHeld_of_none (s : StoreState) (h : s.syncLock = none) : lockHeld s = false := by
  simp [lockHeld, h]

theorem insert_result_free (et : EntityType) (B : List EntityRecord) (s : StoreState)
    (h : lockHeld s = false) :
    (insertRecordsWithDeduplication et B s).1 =
      { success := true,
        payload := some (max 0
          (((performDeduplication ((stateDoc s).getCollection et) B).length : Int) -
            (((stateDoc s).getCollection et).length : Int))),
        errorMessage := none } ∧
    (insertRecordsWithDeduplication et B s).2.2 = 1 := by
  have h3 : RETRY_ATTEMPTS = 2 + 1 := rfl
  unfold insertRecordsWithDeduplication
  rw [h3, insertLoop_succ, acquire_free s h]
  simp only [if_true]
  rw [insertAttemptBody_eq]
  constructor
  · simp [stateDoc, getCollection_syncFlag]
  · trivial

/-! ## Preservation of the id-uniqueness invariant -/

theorem NodupIds_filter (l : List EntityRecord) (p : EntityRecord → Bool) (h : NodupIds l) :
    NodupIds (l.filter p) := by
  unfold NodupIds at h ⊢
  exact List.Nodup.sublist (List.Sublist.map _ (List.filter_sublist l)) h

theorem docInv_default : docInv DEFAULT_STORAGE_STATE := by
  intro et
  cases et <;> simp [NodupIds, DEFAULT_STORAGE_STATE, StorageDoc.getCollection]

theorem docInv_syncFlag (d : StorageDoc) (b : Bool) (h : docInv d) :
    docInv { d with syncInProgress := b } := by
  intro et
  rw [getCollection_syncFlag]
  exact h et

theorem docInv_lastSyncSet (d : StorageDoc) (t : Int) (h : docInv d) :
    docInv { d with lastSync := t } := by
  intro et
  rw [getCollection_lastSyncSet]
  exact h et

theorem docInv_setCollection (d : StorageDoc) (et : EntityType) (l : List EntityRecord)
    (h : docInv d) (hl : NodupIds l) : docInv (d.setCollection et l) := by
  intro et2
  rw [getCollection_setCollection]
  by_cases he : et2 = et
  · simpa [he] using hl
  · simpa [he] using h et2

theorem stateInv_delay (ms : Int) (s : StoreState) (h : stateInv s) :
    stateInv (delayExecution ms s) := h

theorem stateInv_release (s : StoreState) (h : stateInv s) : stateInv (releaseSyncLock s) := by
  rw [stateInv, releaseSyncLock_eq]
  exact docInv_syncFlag _ _ h

theorem stateInv_acquire (s : StoreState) (h : stateInv s) : stateInv ((acquireSyncLock s).2) := by
  by_cases hl : lockHeld s
  · rw [acquire_held s hl]
    exact h
  · rw [acquire_free s (by simpa using hl)]
    exact docInv_syncFlag _ _ h

theorem stateInv_body (et : EntityType) (B : List EntityRecord) (s : StoreState)
    (h : stateInv s) : stateInv ((insertAttemptBody et B s).2) := by
  rw [insertAttemptBody_eq]
  refine stateInv_release _ ?_
  exact docInv_lastSyncSet _ _
    (docInv_setCollection _ _ _ h (NodupIds_performDeduplication _ _))

theorem stateInv_insertLoop (et : EntityType) (B : List EntityRecord) :
    ∀ (fuel : Nat) (s : StoreState) (acc : Nat), stateInv s →
      stateInv ((insertLoop et B fuel s acc).2.1) := by
  intro fuel
  induction fuel with
  | zero => intro s acc h; exact h
  | succ fuel ih =>
    intro s acc h
    rw [insertLoop_succ]
    by_cases hl : lockHeld s
    · rw [acquire_held s hl]
      exact ih (delayExecution RETRY_DELAY_MS s) (acc + 1) (stateInv_delay _ _ h)
    · rw [acquire_free s (by simpa using hl)]
      exact stateInv_body et B _ (docInv_syncFlag _ _ h)

theorem stateInv_insert (et : EntityType) (B : List EntityRecord) (s : StoreState)
    (h : stateInv s) : stateInv ((insertRecordsWithDeduplication et B s).2.1) :=
  stateInv_insertLoop et B RETRY_ATTEMPTS s 0 h

theorem stateInv_remove (et : EntityType) (i : String) (s : StoreState) (h : stateInv s) :
    stateInv ((removeRecord et i s).2) := by
  unfold removeRecord retrieveAllData
  simp only
  by_cases hlen : (((stateDoc s).getCollection et).filter (fun r => r.id != i)).length =
      ((stateDoc s).getCollection et).length
  · simpa [hlen] using h
  · simp only [hlen, if_false, persistData]
    intro et2
    exact docInv_setCollection _ _ _ h (NodupIds_filter _ _ (h et)) et2

theorem stateInv_clear (s : StoreState) : stateInv ((clearAllRecords s).2) := docInv_default

theorem stateInv_runOp (s : StoreState) (op : StorageOp) (h : stateInv s) :
    stateInv (runOp s op) := by
  cases op with
  | insert et B t => exact stateInv_insert et B _ h
  | remove et i t => exact stateInv_remove et i _ h
  | clear t => exact stateInv_clear _

theorem stateInv_runOps : ∀ (ops : List StorageOp) (s : StoreState), stateInv s →
    stateInv (runOps s ops) := by
  intro ops
  induction ops with
  | nil => intro s h; exact h
  | cons op ops ih =>
    intro s h
    exact ih _ (stateInv_runOp s op h)

theorem insertLoop_attempts_le (et : EntityType) (B : List EntityRecord) :
    ∀ (fuel : Nat) (s : StoreState) (acc : Nat),
      (insertLoop et B fuel s acc).2.2 ≤ acc + fuel := by
  intro fuel
  induction fuel with
  | zero => intro s acc; simp [insertLoop]
  | succ fuel ih =>
    intro s acc
    rw [insertLoop_succ]
    by_cases ha : (acquireSyncLock s).1 = true
    · simp only [ha, if_true]
      omega
    · simp only [ha, if_false]
      exact le_trans (ih _ _) (by omega)

/-! ## The claims -/

/-- C1: Recency-wins merge: for an existing collection holding a record with
id `i` and `extractedAt = t1` and an incoming batch holding a record with the
same id and `extractedAt = t2` (both collections with pairwise-distinct ids,
per the §3 invariant), the merged collection associates to `i` the incoming
record iff `t2 > t1`, and the existing record iff `t2 <= t1` (ties keep the
existing record). -/
theorem c1_recency_wins (E B : List EntityRecord) (rE rB : EntityRecord)
    (hE : NodupIds E) (hB : NodupIds B) (hrE : rE ∈ E) (hrB : rB ∈ B) (hid : rB.id = rE.id) :
    lookupById rE.id (performDeduplication E B) =
      some (if rE.extractedAt < rB.extractedAt then rB else rE) := by
  rw [lookupById_performDeduplication E B hE, lookupById_eq_some_of_mem E rE hE hrE,
    filter_id_toList B rE.id hB]
  have hlB : lookupById rE.id B = some rB := by
    rw [← hid]
    exact lookupById_eq_some_of_mem B rB hB hrB
  rw [hlB, listComb_toList (some rE) (some rB), comb_some_some]
  split_ifs <;> rfl

theorem c1_witness :
    lookupById "a" (performDeduplication [EntityRecord.mk "a" 1 "x"] [EntityRecord.mk "a" 2 "y"]) =
      some (if (1 : Int) < 2 then EntityRecord.mk "a" 2 "y" else EntityRecord.mk "a" 1 "x") :=
  c1_recency_wins [EntityRecord.mk "a" 1 "x"] [EntityRecord.mk "a" 2 "y"]
    (EntityRecord.mk "a" 1 "x") (EntityRecord.mk "a" 2 "y")
    (by decide) (by decide) (by decide) (by decide) (by decide)

/-- C2: Uniqueness invariant: the output of the deduplication merge never
holds two records with the same id, for all inputs; and starting from the
default empty document, any sequence of insert, remove and clear operations
leaves every collection of the stored document free of duplicate ids. -/
theorem c2_unique_ids :
    (∀ E B : List EntityRecord, NodupIds (performDeduplication E B)) ∧
    (∀ (ops : List StorageOp) (lock : Option Int) (t0 : Int),
      stateInv (runOps { crmData := some DEFAULT_STORAGE_STATE, syncLock := lock, now := t0 } ops)) := by
  constructor
  · exact NodupIds_performDeduplication
  · intro ops lock t0
    exact stateInv_runOps ops _ docInv_default

/-- C3: Insertion-count correctness: with the lock acquirable, inserting a
batch of records with pairwise-distinct ids into an empty collection reports
a count equal to the batch length; inserting a batch whose ids all already
exist in the collection reports 0; and in general the reported count is the
merged collection size minus the original size, floored at zero. -/
theorem c3_insertion_count :
    (∀ (et : EntityType) (B : List EntityRecord) (s : StoreState),
        lockHeld s = false → (stateDoc s).getCollection et = [] → NodupIds B →
        (insertRecordsWithDeduplication et B s).1 =
          { success := true, payload := some (B.length : Int), errorMessage := none }) ∧
    (∀ (et : EntityType) (B : List EntityRecord) (s : StoreState),
        lockHeld s = false → NodupIds ((stateDoc s).getCollection et) →
        (∀ b ∈ B, b.id ∈ ((stateDoc s).getCollection et).map EntityRecord.id) →
        (insertRecordsWithDeduplication et B s).1 =
          { success := true, payload := some 0, errorMessage := none }) ∧
    (∀ (et : EntityType) (B : List EntityRecord) (s : StoreState),
        lockHeld s = false →
        (insertRecordsWithDeduplication et B s).1 =
          { success := true,
            payload := some (max 0
              (((performDeduplication ((stateDoc s).getCollection et) B).length : Int) -
                (((stateDoc s).getCollection et).length : Int))),
            errorMessage := none }) := by
  refine ⟨?_, ?_, ?_⟩
  · intro et B s hl hemp hB
    rw [(insert_result_free et B s hl).1, hemp]
    have hlen := dedup_nil_length B hB
    have hmax : max 0 ((B.length : Int)) = (B.length : Int) := by omega
    simp [hlen, hmax]
  · intro et B s hl hnd hsub
    rw [(insert_result_free et B s hl).1]
    have hlen := dedup_subset_length _ B hnd hsub
    simp [hlen]
  · intro et B s hl
    exact (insert_result_free et B s hl).1

theorem c3_witness :
    ((insertRecordsWithDeduplication EntityType.contacts [EntityRecord.mk "a" 1 "x"]
        { crmData := some DEFAULT_STORAGE_STATE, syncLock := none, now := 50 }).1 =
      { success := true, payload := some (([EntityRecord.mk "a" 1 "x"] : List EntityRecord).length : Int),
        errorMessage := none }) ∧
    ((insertRecordsWithDeduplication EntityType.contacts [EntityRecord.mk "a" 5 "y"]
        { crmData := some { DEFAULT_STORAGE_STATE with contacts := [EntityRecord.mk "a" 1 "x"] },
          syncLock := none, now := 50 }).1 =
      { success := true, payload := some 0, errorMessage := none }) :=
  ⟨c3_insertion_count.1 EntityType.contacts _ _ (by decide) (by decide) (by decide),
   c3_insertion_count.2.1 EntityType.contacts _ _ (by decide) (by decide) (by decide)⟩

/-- C4 (counterexample): the merge is not commutative as an id-to-record
mapping: two singleton collections with the same id, the same `extractedAt`
and different payloads merge to different records depending on the argument
order, because a tie keeps the existing record. Both inputs have unique
ids, as the claim requires. -/
theorem c4_counterexample :
    NodupIds [EntityRecord.mk "a" 0 "x"] ∧ NodupIds [EntityRecord.mk "a" 0 "y"] ∧
    ¬ sameMapping (performDeduplication [EntityRecord.mk "a" 0 "x"] [EntityRecord.mk "a" 0 "y"])
        (performDeduplication [EntityRecord.mk "a" 0 "y"] [EntityRecord.mk "a" 0 "x"]) := by
  refine ⟨by decide, by decide, fun h => ?_⟩
  have h2 := h "a"
  revert h2
  decide

/-- C4 (amended): for collections with unique ids the merge is associative
as an id-to-record mapping; it is moreover commutative provided no two
records of the two sides share an id and an `extractedAt` value while
differing elsewhere (otherwise the tie-keeps-existing rule makes the order
observable). -/
theorem c4_assoc_comm :
    (∀ A B C : List EntityRecord, NodupIds A → NodupIds B → NodupIds C →
        sameMapping (performDeduplication (performDeduplication A B) C)
          (performDeduplication A (performDeduplication B C))) ∧
    (∀ A B : List EntityRecord, NodupIds A → NodupIds B →
        (∀ a ∈ A, ∀ b ∈ B, a.id = b.id → a.extractedAt = b.extractedAt → a = b) →
        sameMapping (performDeduplication A B) (performDeduplication B A)) := by
  constructor
  · intro A B C hA hB hC i
    rw [lookupById_performDeduplication (performDeduplication A B) C
        (NodupIds_performDeduplication A B) i,
      lookupById_performDeduplication A B hA i,
      lookupById_performDeduplication A (performDeduplication B C) hA i,
      filter_id_toList (performDeduplication B C) i (NodupIds_performDeduplication B C),
      lookupById_performDeduplication B C hB i,
      filter_id_toList B i hB,
      listComb_toList, listComb_toList, listComb_comb]
  · intro A B hA hB hco i
    rw [lookupById_performDeduplication A B hA i, lookupById_performDeduplication B A hB i,
      filter_id_toList B i hB, filter_id_toList A i hA, listComb_toList, listComb_toList]
    apply comb_comm_coherent
    intro x y hx hy hxy
    obtain ⟨hxA, hxi⟩ := lookupById_mem A i x hx
    obtain ⟨hyB, hyi⟩ := lookupById_mem B i y hy
    exact hco x hxA y hyB (by rw [hxi, hyi]) hxy

theorem c4_witness :
    sameMapping
      (performDeduplication (performDeduplication [EntityRecord.mk "a" 1 "x"]
        [EntityRecord.mk "a" 2 "y"]) [EntityRecord.mk "b" 3 "z"])
      (performDeduplication [EntityRecord.mk "a" 1 "x"]
        (performDeduplication [EntityRecord.mk "a" 2 "y"] [EntityRecord.mk "b" 3 "z"])) ∧
    sameMapping (performDeduplication [EntityRecord.mk "a" 1 "x"] [EntityRecord.mk "a" 2 "y"])
      (performDeduplication [EntityRecord.mk "a" 2 "y"] [EntityRecord.mk "a" 1 "x"]) :=
  ⟨c4_assoc_comm.1 _ _ _ (by decide) (by decide) (by decide),
   c4_assoc_comm.2 _ _ (by decide) (by decide) (by decide)⟩

/-- C5: Idempotence of merge: merging the same batch a second time into the
result of the first merge returns the first result unchanged, record order
included, for every existing collection and every batch. -/
theorem c5_merge_idempotent (E B : List EntityRecord) :
    performDeduplication (performDeduplication E B) B = performDeduplication E B := by
  have hD : NodupIds (performDeduplication E B) := NodupIds_performDeduplication E B
  have hwf : mapWF (B.foldl dedupStep (E.foldl seedStep [])) :=
    mapWF_foldl_dedup B _ (mapWF_foldl_seed E [] (by intro p hp; simp at hp))
  have hid : ∀ b ∈ B, ∃ ex,
      mapGet b.id ((performDeduplication E B).map (fun r => (r.id, r))) = some ex ∧
      ¬ex.extractedAt < b.extractedAt := by
    intro b hb
    rw [mapGet_map_pair]
    have hchar : lookupById b.id (performDeduplication E B) =
        listComb (mapGet b.id (E.foldl seedStep [])) (B.filter (fun r => r.id == b.id)) := by
      unfold performDeduplication
      rw [lookupById_values _ hwf, mapGet_foldl_dedupStep]
    have hbmem : b ∈ B.filter (fun r => r.id == b.id) := List.mem_filter.mpr ⟨hb, by simp⟩
    obtain ⟨ex, hex, hle⟩ := listComb_mem_le _ _ b hbmem
    rw [hchar, hex]
    exact ⟨ex, rfl, by omega⟩
  show (B.foldl dedupStep ((performDeduplication E B).foldl seedStep [])).map Prod.snd = _
  rw [seeded_eq _ hD, foldl_dedupStep_id B _ hid, List.map_map]
  have hco : (Prod.snd ∘ fun r : EntityRecord => (r.id, r)) = id := rfl
  rw [hco, List.map_id]

/-- C6 (counterexample): with a stored lock timestamp of exactly 0 and a
clock within the timeout window, the claim as stated requires acquisition to
fail without writing; the code instead acquires (and writes), because the
JavaScript truthiness test `existingLock && ...` treats the number 0 as an
absent lock. -/
theorem c6_counterexample :
    ({ crmData := some DEFAULT_STORAGE_STATE, syncLock := some 0, now := 1000 } : StoreState).syncLock
        = some 0 ∧
    (1000 : Int) - 0 < lockTimeout ∧
    (acquireSyncLock
      { crmData := some DEFAULT_STORAGE_STATE, syncLock := some 0, now := 1000 }).1 = true ∧
    (acquireSyncLock
      { crmData := some DEFAULT_STORAGE_STATE, syncLock := some 0, now := 1000 }).2.syncLock
        = some 1000 := by
  refine ⟨rfl, by decide, by decide, by decide⟩

/-- C6 (amended): when the document and the lock key can be read, the call
returns false and writes nothing iff a nonzero lock timestamp is present
whose age is strictly less than the 30000 ms timeout (a stored timestamp of
exactly 0 is treated as absent by the truthiness check); otherwise the call
writes the current time under the lock key, persists the document with
`syncInProgress := true`, and returns true — in particular a lock older than
the timeout is acquirable regardless of the stored flag. -/
theorem c6_lock_acquisition (s : StoreState) :
    (acquireSyncLock s = (false, s) ↔
      ∃ ts, s.syncLock = some ts ∧ ts ≠ 0 ∧ s.now - ts < lockTimeout) ∧
    ((¬∃ ts, s.syncLock = some ts ∧ ts ≠ 0 ∧ s.now - ts < lockTimeout) →
      acquireSyncLock s =
        (true, { crmData := some { stateDoc s with syncInProgress := true },
                 syncLock := some s.now, now := s.now })) := by
  constructor
  · rw [← lockHeld_iff]
    constructor
    · intro h
      by_cases hl : lockHeld s
      · exact hl
      · rw [acquire_free s (by simpa using hl)] at h
        simp at h
    · intro h
      exact acquire_held s h
  · intro h
    rw [← lockHeld_iff] at h
    cases hl : lockHeld s with
    | true => exact absurd hl h
    | false => exact acquire_free s hl

theorem c6_witness :
    (acquireSyncLock { crmData := some DEFAULT_STORAGE_STATE, syncLock := some 5, now := 100 } =
      (false, { crmData := some DEFAULT_STORAGE_STATE, syncLock := some 5, now := 100 })) ∧
    (acquireSyncLock { crmData := some DEFAULT_STORAGE_STATE, syncLock := none, now := 100 } =
      (true, { crmData := some { DEFAULT_STORAGE_STATE with syncInProgress := true },
               syncLock := some 100, now := 100 })) :=
  ⟨(c6_lock_acquisition _).1.mpr ⟨5, rfl, by decide, by decide⟩,
   (c6_lock_acquisition _).2 (fun hex => by obtain ⟨ts, hts, _, _⟩ := hex; cases hts)⟩

/-- C7: Bounded retry on contention: the insert protocol calls the lock
acquisition at most RETRY_ATTEMPTS = 3 times, sleeping RETRY_DELAY_MS =
1000 ms after each failed attempt; when acquisition fails at all three
attempt instants, the operation returns the lock-acquisition-failure result
and neither the stored document nor the lock key is written. -/
theorem c7_bounded_retry :
    (∀ (et : EntityType) (B : List EntityRecord) (s : StoreState),
        (insertRecordsWithDeduplication et B s).2.2 ≤ RETRY_ATTEMPTS) ∧
    (∀ (et : EntityType) (B : List EntityRecord) (s : StoreState),
        (acquireSyncLock s).1 = false →
        (acquireSyncLock (delayExecution RETRY_DELAY_MS s)).1 = false →
        (acquireSyncLock (delayExecution RETRY_DELAY_MS (delayExecution RETRY_DELAY_MS s))).1 = false →
        (insertRecordsWithDeduplication et B s).1 =
          { success := false, payload := none,
            errorMessage := some "Failed to acquire sync lock after maximum retries" } ∧
        (insertRecordsWithDeduplication et B s).2.1.crmData = s.crmData ∧
        (insertRecordsWithDeduplication et B s).2.1.syncLock = s.syncLock ∧
        (insertRecordsWithDeduplication et B s).2.2 = RETRY_ATTEMPTS) := by
  constructor
  · intro et B s
    have := insertLoop_attempts_le et B RETRY_ATTEMPTS s 0
    simpa [insertRecordsWithDeduplication] using this
  · intro et B s h0 h1 h2
    have e0 := acquire_fail_eq s h0
    have e1 := acquire_fail_eq _ h1
    have e2 := acquire_fail_eq _ h2
    have hrun : insertRecordsWithDeduplication et B s =
        ({ success := false, payload := none,
           errorMessage := some "Failed to acquire sync lock after maximum retries" },
         delayExecution RETRY_DELAY_MS (delayExecution RETRY_DELAY_MS
           (delayExecution RETRY_DELAY_MS s)), 3) := by
      have h3 : RETRY_ATTEMPTS = 2 + 1 := rfl
      unfold insertRecordsWithDeduplication
      rw [h3, insertLoop_succ, e0]
      rw [show (2 : Nat) = 1 + 1 from rfl, insertLoop_succ, e1]
      rw [show (1 : Nat) = 0 + 1 from rfl, insertLoop_succ, e2]
      rfl
    rw [hrun]
    exact ⟨rfl, rfl, rfl, rfl⟩

theorem c7_witness :
    ((acquireSyncLock
      { crmData := some DEFAULT_STORAGE_STATE, syncLock := some 100000, now := 100000 }).1 = false) ∧
    ((insertRecordsWithDeduplication EntityType.contacts []
        { crmData := some DEFAULT_STORAGE_STATE, syncLock := some 100000, now := 100000 }).1 =
      { success := false, payload := none,
        errorMessage := some "Failed to acquire sync lock after maximum retries" }) :=
  ⟨by decide,
   (c7_bounded_retry.2 EntityType.contacts [] _ (by decide) (by decide) (by decide)).1⟩

/-- C8: Delete of a nonexistent id fails atomically: when no record of the
collection carries the requested id, removeRecord returns the
`Record not found` failure result and leaves the store state unchanged. -/
theorem c8_remove_nonexistent (et : EntityType) (recordId : String) (s : StoreState)
    (h : ∀ r ∈ (stateDoc s).getCollection et, r.id ≠ recordId) :
    removeRecord et recordId s =
      ({ success := false, payload := none, errorMessage := some "Record not found" }, s) := by
  have hfil : ((stateDoc s).getCollection et).filter (fun r => r.id != recordId) =
      (stateDoc s).getCollection et := by
    apply List.filter_eq_self.mpr
    intro r hr
    simpa [bne_iff_ne] using h r hr
  simp [removeRecord, retrieveAllData, hfil]

theorem c8_witness :
    removeRecord EntityType.contacts "missing-id"
        { crmData := some DEFAULT_STORAGE_STATE, syncLock := none, now := 7 } =
      ({ success := false, payload := none, errorMessage := some "Record not found" },
       { crmData := some DEFAULT_STORAGE_STATE, syncLock := none, now := 7 }) :=
  c8_remove_nonexistent EntityType.contacts "missing-id" _ (by decide)

/-- C9: Get-or-default: when the read succeeds but no document is stored,
retrieveAllData reports success with the default empty document (empty
collections, lastSync 0, syncInProgress false) — never an error. -/
theorem c9_get_or_default (s : StoreState) (h : s.crmData = none) :
    retrieveAllData s =
      { success := true, payload := some DEFAULT_STORAGE_STATE, errorMessage := none } ∧
    DEFAULT_STORAGE_STATE.contacts = [] ∧ DEFAULT_STORAGE_STATE.deals = [] ∧
    DEFAULT_STORAGE_STATE.tasks = [] ∧ DEFAULT_STORAGE_STATE.lastSync = 0 ∧
    DEFAULT_STORAGE_STATE.syncInProgress = false := by
  refine ⟨?_, rfl, rfl, rfl, rfl, rfl⟩
  simp [retrieveAllData, stateDoc, h]

theorem c9_witness :
    retrieveAllData { crmData := none, syncLock := none, now := 0 } =
      { success := true, payload := some DEFAULT_STORAGE_STATE, errorMessage := none } :=
  (c9_get_or_default { crmData := none, syncLock := none, now := 0 } rfl).1

/-- C10: Merge never shrinks a collection: every id of the existing
collection survives the merge; the output is at least as long as the number
of distinct existing ids; merging an empty batch into a collection with
unique ids returns it unchanged; and for collections with unique ids the
merged size is at least the original size, so the floored insertion count
equals the unfloored difference. -/
theorem c10_merge_never_shrinks :
    (∀ (E B : List EntityRecord) (r : EntityRecord), r ∈ E →
        r.id ∈ (performDeduplication E B).map EntityRecord.id) ∧
    (∀ E B : List EntityRecord,
        distinctCount (E.map EntityRecord.id) ≤ (performDeduplication E B).length) ∧
    (∀ E : List EntityRecord, NodupIds E → performDeduplication E [] = E) ∧
    (∀ E B : List EntityRecord, NodupIds E →
        E.length ≤ (performDeduplication E B).length ∧
        max 0 (((performDeduplication E B).length : Int) - (E.length : Int)) =
          ((performDeduplication E B).length : Int) - (E.length : Int)) := by
  refine ⟨?_, ?_, ?_, ?_⟩
  · intro E B r hr
    have hwf : mapWF (B.foldl dedupStep (E.foldl seedStep [])) :=
      mapWF_foldl_dedup B _ (mapWF_foldl_seed E [] (by intro p hp; simp at hp))
    show r.id ∈ ((B.foldl dedupStep (E.foldl seedStep [])).map Prod.snd).map EntityRecord.id
    rw [values_ids _ hwf]
    exact mem_keys_foldl_dedup r.id B _ (mem_keys_foldl_seed r E [] (Or.inl hr))
  · intro E B
    unfold performDeduplication
    rw [List.length_map]
    have h1 := length_seeded_eq_distinct E
    have h2 := length_le_foldl_dedup B (E.foldl seedStep [])
    omega
  · exact dedup_empty_batch
  · intro E B hE
    have hge := dedup_ge_length E B hE
    refine ⟨hge, max_eq_right ?_⟩
    omega

theorem c10_witness :
    ((EntityRecord.mk "a" 1 "x").id ∈
      (performDeduplication [EntityRecord.mk "a" 1 "x"] [EntityRecord.mk "b" 2 "y"]).map
        EntityRecord.id) ∧
    performDeduplication [EntityRecord.mk "a" 1 "x"] [] = [EntityRecord.mk "a" 1 "x"] ∧
    ([EntityRecord.mk "a" 1 "x"] : List EntityRecord).length ≤
      (performDeduplication [EntityRecord.mk "a" 1 "x"] [EntityRecord.mk "b" 2 "y"]).length :=
  ⟨c10_merge_never_shrinks.1 _ _ _ (by decide),
   c10_merge_never_shrinks.2.2.1 _ (by decide),
   (c10_merge_never_shrinks.2.2.2 _ _ (by decide)).1⟩
